import Mathlib

/- Verification development for the CURE clustering engine of
`pyclustering/clustering/cure.py`, shallow-embedded over exact rational
arithmetic.  Python object identity is modelled by indices into an append-only
arena of clusters; the ordered frontier (`cure.__queue`) is a list of arena
indices; the k-d tree (`cure.__tree`) is modelled, following the
specification of its interface, as a list of (representative point, owner
index) entries in insertion order.  Operations that would raise in Python
(removing an absent element from a list, following a dead pointer, deleting
an absent coordinate from the tree) return `none`. -/

namespace Cure

/-- A data point: an ordered, fixed-length sequence of rationals. -/
abbrev Point := List ℚ

/-- Modelled from the spec: the generic Euclidean distance utility
(`pyclustering.support.euclidean_distance`, outside the analysed sources) is
represented by the squared Euclidean distance.  The engine only ever compares
distance values with each other and never feeds them back into coordinates,
and squaring is strictly monotone on nonnegative reals, so every comparison
made by the engine is preserved exactly. -/
def euclidean_distance_sq (a b : Point) : ℚ :=
  (List.zipWith (fun x y => (x - y) * (x - y)) a b).sum

/-- A stored distance value: `none` models `float('inf')`, `some q` a finite
squared Euclidean distance. -/
abbrev Dist := Option ℚ

/-- Strict comparison of stored distances (`none` is plus infinity). -/
def dlt : Dist → Dist → Bool
  | some a, some b => decide (a < b)
  | some _, none => true
  | none, _ => false

/-- Non-strict comparison of stored distances. -/
def dle (a b : Dist) : Bool := !(dlt b a)

/-- Representation of a CURE cluster (Python class `cure_cluster`).
`closest` is an arena index (`None` in Python is `none`); `distance` caches
the squared distance to `closest` and starts at infinity. -/
structure cure_cluster where
  points : List Point
  mean : Point
  rep : List Point
  closest : Option Nat
  distance : Dist
deriving Repr, DecidableEq

instance : Inhabited cure_cluster := ⟨⟨[], [], [], none, none⟩⟩

/-- `cure_cluster(point)`: a singleton cluster owning one input point. -/
def cure_cluster.single (p : Point) : cure_cluster :=
  { points := [p], mean := p, rep := [p], closest := none, distance := none }

/-- The engine state: `arena` holds every cluster ever created (an index is a
Python object identity), `queue` is `cure.__queue`, `tree` is `cure.__tree`. -/
structure cure_state where
  arena : List cure_cluster
  queue : List Nat
  tree : List (Point × Nat)
deriving Repr, DecidableEq

/-- Look up a cluster by arena index. -/
def getC (s : cure_state) (i : Nat) : cure_cluster := s.arena.getD i default

/-- `cure.__cluster_distance`: minimal squared distance over all
representative-point pairs of the two clusters, starting from infinity and
keeping strict improvements. -/
def cluster_distance (cluster1 cluster2 : cure_cluster) : Dist :=
  cluster1.rep.foldl (fun acc p1 =>
    cluster2.rep.foldl (fun acc2 p2 =>
      let d : Dist := some (euclidean_distance_sq p1 p2)
      if dlt d acc2 then d else acc2) acc) none

/-- The inner scan of the representative selection in
`cure.__merge_clusters`: running maximum of the squared distance to `anchor`
over `points`, updated on greater-or-equal, so among ties the point seen last
wins.  The second component is `none` only when `points` is empty. -/
def max_dist_point (points : List Point) (anchor : Point) : ℚ × Option Point :=
  points.foldl (fun acc point =>
    let md := euclidean_distance_sq point anchor
    if decide (acc.1 ≤ md) then (md, some point) else acc) (0, none)

/-- One iteration of the representative selection loop in
`cure.__merge_clusters`: the first iteration measures the squared distance to
the merged mean, every later iteration measures it to `temporary[0]`, the
first selected candidate; the resulting farthest point (ties: last seen wins)
is appended unless it was already selected.  (When `points` is empty the
Python original would append `None` and crash while shrinking; the model
leaves `temporary` unchanged in that unreachable case.) -/
def select_step (points : List Point) (mean : Point)
    (temporary : List Point) (index : Nat) : List Point :=
  let maximal :=
    if index == 0 then max_dist_point points mean
    else max_dist_point points (temporary.getD 0 [])
  match maximal.2 with
  | some maximal_point =>
      if maximal_point ∈ temporary then temporary else temporary ++ [maximal_point]
  | none => temporary

/-- `cure.__merge_clusters`: concatenate the member points, form the
size-weighted mean, run up to `number_represent_points` selection iterations,
then shrink each selected candidate toward the mean by `compression`. -/
def merge_clusters (number_represent_points : Nat) (compression : ℚ)
    (cluster1 cluster2 : cure_cluster) : cure_cluster :=
  let points := cluster1.points ++ cluster2.points
  let dimension := cluster1.mean.length
  let mean := (List.range dimension).map (fun index =>
    ((cluster1.points.length : ℚ) * cluster1.mean.getD index 0 +
     (cluster2.points.length : ℚ) * cluster2.mean.getD index 0) /
    ((cluster1.points.length : ℚ) + (cluster2.points.length : ℚ)))
  let temporary := (List.range number_represent_points).foldl
    (select_step points mean) []
  let rep := temporary.map (fun point =>
    (List.range dimension).map (fun index =>
      point.getD index 0 + compression * (mean.getD index 0 - point.getD index 0)))
  { points := points, mean := mean, rep := rep, closest := none, distance := none }

/-- Modelled from the spec: the k-d tree's radius-bounded query
(`kdtree.find_nearest_dist_nodes`, outside the analysed sources) returns
every indexed entry within `distance` of `point` as a (squared distance,
owner index) pair, in tree insertion order. -/
def find_nearest_dist_nodes (tree : List (Point × Nat)) (point : Point)
    (distance : Dist) : List (ℚ × Nat) :=
  tree.filterMap (fun entry =>
    let d := euclidean_distance_sq entry.1 point
    if dle (some d) distance then some (d, entry.2) else none)

/-- `cure.__closest_cluster`: scan the radius query of every representative
point of `cluster`, keeping the strictly nearest entry owned by a cluster
other than `cluster` itself (identity comparison on the owner). -/
def closest_cluster (tree : List (Point × Nat)) (cluster : cure_cluster)
    (clusterIdx : Nat) (distance : Dist) : Option Nat × Dist :=
  cluster.rep.foldl (fun acc point =>
    (find_nearest_dist_nodes tree point distance).foldl (fun acc2 cand =>
      if dlt (some cand.1) acc2.2 && !(cand.2 == clusterIdx) then
        (some cand.2, some cand.1)
      else acc2) acc) (none, none)

/-- Modelled from the spec: exact-coordinate deletion in the k-d tree removes
the matching entry inserted earliest; deleting an absent coordinate is an
error. -/
def tree_remove (tree : List (Point × Nat)) (point : Point) :
    Option (List (Point × Nat)) :=
  match tree with
  | [] => none
  | entry :: rest =>
      if entry.1 = point then some rest
      else (tree_remove rest point).map (entry :: ·)

/-- `cure.__delete_represented_points`: remove every representative point of
`cluster` from the tree, in order. -/
def delete_represented_points (tree : List (Point × Nat)) (cluster : cure_cluster) :
    Option (List (Point × Nat)) :=
  cluster.rep.foldlM (fun t point => tree_remove t point) tree

/-- `cure.__insert_represented_points`: insert every representative point of
the cluster, tagged with its owner index, in order. -/
def insert_represented_points (tree : List (Point × Nat)) (cluster : cure_cluster)
    (clusterIdx : Nat) : List (Point × Nat) :=
  tree ++ cluster.rep.map (fun point => (point, clusterIdx))

/-- `cure.__insert_cluster`: insert an index before the first queue element
whose cached distance is strictly greater than the new cluster's, appending
at the end when none is. -/
def insert_cluster (key : Nat → Dist) (queue : List Nat) (i : Nat) : List Nat :=
  match queue with
  | [] => [i]
  | j :: rest =>
      if dlt (key i) (key j) then i :: j :: rest else j :: insert_cluster key rest i

/-- Python's `list.remove`: delete the first occurrence, error when absent. -/
def remove_first (queue : List Nat) (i : Nat) : Option (List Nat) :=
  if i ∈ queue then some (queue.erase i) else none

/-- `cure.__relocate_cluster`: remove then re-insert in sorted position. -/
def relocate_cluster (key : Nat → Dist) (queue : List Nat) (i : Nat) :
    Option (List Nat) :=
  (remove_first queue i).map (fun q => insert_cluster key q i)

/-- The cluster produced for data index `i` by `cure.__create_queue`'s
initialisation scan: starting from the singleton cluster, its closest
neighbour is the first strict minimum of the cluster distance over all other
indices (Python stores index `-1`, i.e. the last cluster, when no other
cluster exists), with the corresponding cached distance. -/
def initial_cluster (base : List cure_cluster) (n i : Nat) : cure_cluster :=
  let ci := base.getD i default
  let scan := (List.range n).foldl (fun acc k =>
    if i ≠ k then
      let dist := cluster_distance ci (base.getD k default)
      if dlt dist acc.1 then (dist, some k) else acc
    else acc) ((none : Dist), (none : Option Nat))
  { ci with closest := some (scan.2.getD (n - 1)), distance := scan.1 }

/-- Python's `list.sort(key = lambda x: x.distance)` is a stable sort by the
cached distance; it is modelled as a stable insertion sort (inserting each
element, in order, after all elements with an equal or smaller key), which is
extensionally equal to every stable sort by the same key. -/
def sort_queue (key : Nat → Dist) (l : List Nat) : List Nat :=
  l.foldl (insert_cluster key) []

/-- `cure.__create_queue`: one singleton cluster per input point (arena order
is data order), each cluster's closest neighbour found by an exhaustive scan
keeping the first strict minimum (when no other cluster exists the Python
original stores index `-1`, i.e. the last cluster), then a stable sort of the
queue by cached distance. -/
def create_queue (data : List Point) : List cure_cluster × List Nat :=
  let n := data.length
  let base := data.map cure_cluster.single
  let arena := (List.range n).map (initial_cluster base n)
  let queue := sort_queue (fun i => (arena.getD i default).distance) (List.range n)
  (arena, queue)

/-- `cure.__create_kdtree`: insert the representative points of every cluster,
iterating the already sorted queue in order. -/
def create_kdtree (arena : List cure_cluster) (queue : List Nat) :
    List (Point × Nat) :=
  queue.foldl (fun tree i => insert_represented_points tree (arena.getD i default) i) []

/-- `cure.__init__` with `ccore = False`: build the queue and the k-d tree.
No validation of any kind is performed. -/
def cure_init (data : List Point) : cure_state :=
  let aq := create_queue data
  { arena := aq.1, queue := aq.2, tree := create_kdtree aq.1 aq.2 }

/-- The body of the scan-and-repair loop of `cure.process` (source lines
120-152), acting on an accumulator of (the merged cluster being completed,
the arena, the relocation requests):  compute the distance from the merged
cluster to `item`, keep the strict minimum as the merged cluster's neighbour,
then repair `item` itself: if its cached neighbour is one of the two merged
clusters, either re-derive its neighbour through the tree (radius: the
distance to the merged cluster, falling back to the merged cluster when the
query surfaces nothing) when its cached distance is strictly smaller than the
distance to the merged cluster, or assign the merged cluster outright; if its
cached neighbour survives but the merged cluster is strictly closer, only the
`closest` pointer is reassigned, because the source writes the misspelled
attribute `item.ditance` instead of the cached distance field. -/
def repair_acc (i1 i2 mIdx : Nat) (tree3 : List (Point × Nat))
    (acc : cure_cluster × List cure_cluster × List Nat) (item : Nat) :
    cure_cluster × List cure_cluster × List Nat :=
  let merged := acc.1
  let arena := acc.2.1
  let requests := acc.2.2
  let itemc := arena.getD item default
  let distance := cluster_distance merged itemc
  let merged' := if dlt distance merged.distance then
      { merged with closest := some item, distance := distance }
    else merged
  if itemc.closest == some i1 || itemc.closest == some i2 then
    if dlt itemc.distance distance then
      let found := closest_cluster tree3 itemc item distance
      let itemc' := match found.1 with
        | none => { itemc with closest := some mIdx, distance := distance }
        | some c => { itemc with closest := some c, distance := found.2 }
      (merged', arena.set item itemc', requests ++ [item])
    else
      (merged',
       arena.set item { itemc with closest := some mIdx, distance := distance },
       requests ++ [item])
  else if dlt distance itemc.distance then
    (merged', arena.set item { itemc with closest := some mIdx },
     requests ++ [item])
  else (merged', arena, requests)

/-- The initialisation of the scan-and-repair loop (source lines 116-118):
when clusters remain, the merged cluster provisionally takes the queue head
as its nearest neighbour; the relocation-request list starts empty. -/
def scan_start (s : cure_state) (merged0 : cure_cluster) (q2 : List Nat) :
    cure_cluster × List cure_cluster × List Nat :=
  match q2 with
  | [] => (merged0, s.arena, [])
  | j :: _ =>
      let m1 := { merged0 with closest := some j,
                               distance := cluster_distance merged0 (getC s j) }
      (m1, s.arena, [])

/-- One iteration of the main loop of `cure.process` (source lines 96-156):
pop the head pair, drop their tree entries, build and index the merged
cluster, scan the remaining queue to (a) find the merged cluster's nearest
neighbour and (b) repair every cluster whose cached neighbour was destroyed
or is now beaten by the merged cluster, then insert the merged cluster and
relocate every touched cluster.  In the branch where a surviving neighbour is
merely beaten by the merged cluster the source assigns the misspelled
attribute `item.ditance`, so only the `closest` pointer changes there and the
cached `distance` field keeps its previous value. -/
def round_step (number_represent_points : Nat) (compression : ℚ) (s : cure_state) :
    Option cure_state :=
  match s.queue with
  | [] => none
  | i1 :: _ =>
    match (getC s i1).closest with
    | none => none
    | some i2 =>
      match remove_first s.queue i1 with
      | none => none
      | some q1 =>
      match remove_first q1 i2 with
      | none => none
      | some q2 =>
      match delete_represented_points s.tree (getC s i1) with
      | none => none
      | some t1 =>
      match delete_represented_points t1 (getC s i2) with
      | none => none
      | some t2 =>
      let merged0 := merge_clusters number_represent_points compression
        (getC s i1) (getC s i2)
      let mIdx := s.arena.length
      let tree3 := insert_represented_points t2 merged0 mIdx
      let result := q2.foldl (repair_acc i1 i2 mIdx tree3) (scan_start s merged0 q2)
      let arena2 := result.2.1 ++ [result.1]
      let key := fun i => (arena2.getD i default).distance
      let q3 := insert_cluster key q2 mIdx
      match result.2.2.foldlM (fun q item => relocate_cluster key q item) q3 with
      | none => none
      | some q4 => some { arena := arena2, queue := q4, tree := tree3 }

/-- The `while len(queue) > number_cluster` loop of `cure.process`, with
explicit fuel; the initial queue length is always enough fuel because every
successful round shrinks the queue by exactly one. -/
def process_loop (number_represent_points : Nat) (compression : ℚ)
    (number_cluster : Nat) : Nat → cure_state → Option cure_state
  | 0, s => if number_cluster < s.queue.length then none else some s
  | fuel + 1, s =>
    if number_cluster < s.queue.length then
      match round_step number_represent_points compression s with
      | none => none
      | some s' => process_loop number_represent_points compression number_cluster fuel s'
    else some s

/-- `cure.process` followed by `cure.get_clusters` on the pure-Python path:
run the merge loop to completion and read off each surviving cluster's member
points in queue order. -/
def cure_process (data : List Point) (number_cluster : Nat)
    (number_represent_points : Nat) (compression : ℚ) :
    Option (List (List Point)) :=
  let s0 := cure_init data
  (process_loop number_represent_points compression number_cluster
      s0.queue.length s0).map
    (fun s => s.queue.map (fun i => (getC s i).points))

/-- The representative selection as worded by the specification (§4.1 steps
1-5): each representative after the first is the not-yet-selected point
farthest from the most recently selected representative, ties resolved in
favour of the point seen last, stopping after `R` picks or when no unselected
point remains.  This definition follows the specification text and is
compared against the selection actually performed by `merge_clusters`. -/
def spec_select_representors (number_represent_points : Nat) (points : List Point)
    (mean : Point) : List Point :=
  (List.range number_represent_points).foldl (fun temporary index =>
    let candidates := points.filter (fun p => decide (p ∉ temporary))
    let anchor := if index == 0 then mean else (temporary.getLast?).getD []
    match (max_dist_point candidates anchor).2 with
    | some p => temporary ++ [p]
    | none => temporary) []

/-- One pass of the selection loop that `merge_clusters` actually performs
after the first pick, phrased by structural recursion: every iteration
recomputes the point of `points` farthest from the fixed anchor `t0` (the
first selected candidate), appending it only when it is not yet selected. -/
def first_anchor_iter (points : List Point) (t0 : Point) :
    Nat → List Point → List Point
  | 0, temporary => temporary
  | n + 1, temporary =>
      match (max_dist_point points t0).2 with
      | some p =>
          first_anchor_iter points t0 n
            (if p ∈ temporary then temporary else temporary ++ [p])
      | none => first_anchor_iter points t0 n temporary

/-- The selection rule of `merge_clusters` stated in closed form: the first
candidate is the point farthest from the mean, and each of the remaining
`R - 1` iterations measures distance to that first candidate. -/
def first_anchor_select (number_represent_points : Nat) (points : List Point)
    (mean : Point) : List Point :=
  match number_represent_points with
  | 0 => []
  | n + 1 =>
      match (max_dist_point points mean).2 with
      | none => []
      | some t0 => first_anchor_iter points t0 n [t0]

/-- The coordinate-wise centroid of a list of points of dimension `dim`. -/
def centroid (dim : Nat) (points : List Point) : Point :=
  (List.range dim).map (fun i =>
    (points.map (fun p => p.getD i 0)).sum / (points.length : ℚ))

/-- Well-formedness of one cluster for dimension `dim`: it owns at least one
point, all its points have dimension `dim`, and its `mean` field is the exact
coordinate-wise centroid of its member points. -/
def cluster_wf (dim : Nat) (c : cure_cluster) : Prop :=
  c.points ≠ [] ∧ (∀ p ∈ c.points, p.length = dim) ∧ c.mean = centroid dim c.points

/-- Well-formedness of an engine state: every arena cluster is well formed
and every queue index, tree owner and `closest` pointer is a valid arena
index. -/
def state_wf (dim : Nat) (s : cure_state) : Prop :=
  (∀ c ∈ s.arena, cluster_wf dim c) ∧
  (∀ i ∈ s.queue, i < s.arena.length) ∧
  (∀ e ∈ s.tree, e.2 < s.arena.length) ∧
  (∀ c ∈ s.arena, ∀ j, c.closest = some j → j < s.arena.length)

/-- The multiset of member points held across the queue's clusters. -/
def queue_points (arena : List cure_cluster) (queue : List Nat) : Multiset Point :=
  (queue.map (fun i => ((arena.getD i default).points : Multiset Point))).sum

/-- Input exhibiting the misspelled-attribute defect of the repair loop:
after the first round the cluster at `[1, 9/5]` is strictly closer to the
merged cluster than to its cached neighbour, so the `elif` branch fires. -/
def c3_data : List Point := [[0, 0], [2, 0], [1, 9/5], [1, 383/100]]

/-- Input exhibiting the search radius actually used by the neighbour
re-derivation: the cluster at `[10]` loses its cached neighbour `[1]` and the
radius-bounded query is issued with the distance to the merged cluster
(squared `1369/16`), not the cached distance (squared `81`), so it can still
surface the cluster at `[19.1]` (squared distance `8281/100`). -/
def c4_data : List Point := [[0], [1], [10], [191/10]]

/-- Input on which the frontier queue loses sortedness: during the first
round the cluster at `[-2]` is repaired to a strictly larger cached distance
and the merged cluster is inserted relative to its stale position, leaving
the queue unsorted after the round. -/
def c7_data : List Point := [[0], [1], [57/20], [-2], [10], [241/20], [-21/5]]

/-- A two-point cluster used to compare the implemented representative
selection with the selection worded by the specification. -/
def c5_clusterA : cure_cluster :=
  { points := [[0], [10]], mean := [5], rep := [[0], [10]],
    closest := none, distance := none }

/-- A singleton cluster merged into `c5_clusterA` for the comparison. -/
def c5_clusterB : cure_cluster := cure_cluster.single [4]

/-- The cluster produced by merging the singletons `[0]` and `[1]` in the
first round on `c4_data` (five representative slots, compression `1/2`). -/
def c4_merged : cure_cluster :=
  { points := [[0], [1]], mean := [1/2], rep := [[3/4], [1/4]],
    closest := none, distance := none }

/-- The state after the first merge round on `c4_data`. -/
def c4_round1 : cure_state :=
  { arena := [{ points := [[0]], mean := [0], rep := [[0]],
                closest := some 1, distance := some 1 },
              { points := [[1]], mean := [1], rep := [[1]],
                closest := some 0, distance := some 1 },
              { points := [[10]], mean := [10], rep := [[10]],
                closest := some 3, distance := some (8281/100) },
              { points := [[191/10]], mean := [191/10], rep := [[191/10]],
                closest := some 2, distance := some (8281/100) },
              { points := [[0], [1]], mean := [1/2], rep := [[3/4], [1/4]],
                closest := some 2, distance := some (1369/16) }],
    queue := [3, 2, 4],
    tree := [([10], 2), ([191/10], 3), ([3/4], 4), ([1/4], 4)] }

end Cure

namespace Cure

section ConcreteRuns

attribute [local semireducible] Rat.add Rat.mul Rat.sub Rat.inv

set_option maxRecDepth 40000

/-- C3: the claim states that when the merged cluster is strictly closer than
a surviving cached neighbour, the engine updates both the `closest` pointer
and the cached nearest-neighbour distance field.  On `c3_data` the first
round merges the clusters of `[0,0]` and `[2,0]` into arena index `4`, and
the branch fires for the cluster at `[1, 9/5]` (arena index `2`): its
`closest` pointer is set to `4`, but because the source assigns the
misspelled attribute `item.ditance`, its cached distance field keeps the old
value `41209/10000` even though the distance to the merged cluster is
`349/100`.  The claim (and the specification's normative text) say the field
is updated; the code does not update it. -/
theorem C3_ditance_typo :
    (round_step 5 (1/2) (cure_init c3_data)).map (fun s' =>
        ((getC s' 2).closest, (getC s' 2).distance,
         cluster_distance (getC s' 2) (getC s' 4))) =
      some (some 4, some (41209/10000), some (349/100)) ∧
    (41209/10000 : ℚ) ≠ 349/100 := by
  constructor
  · decide
  · decide

/-- C4: the claim states that the neighbour re-derivation queries the spatial
index with the item's cached nearest-neighbour distance as the search radius.
On `c4_data` the first round merges the singletons `[0]` and `[1]` into arena
index `4`; for the cluster at `[10]` (arena index `2`, cached squared
distance `81`) the engine instead queries with the squared distance to the
merged cluster (`1369/16`) and finds the cluster at `[19.1]` (index `3`), so
its new neighbour is `3`.  A query with the cached distance `81` as radius,
as the claim describes, surfaces no other cluster, which would force the
fallback assignment of the merged cluster `4` — a different result. -/
theorem C4_radius_counterexample :
    (round_step 5 (1/2) (cure_init c4_data)).map (fun s' =>
        ((getC s' 2).closest, (getC s' 2).distance)) =
      some (some 3, some (8281/100)) ∧
    (delete_represented_points (cure_init c4_data).tree
        (getC (cure_init c4_data) 0)).bind (fun t1 =>
          delete_represented_points t1 (getC (cure_init c4_data) 1)) =
      some [([10], 2), ([191/10], 3)] ∧
    closest_cluster
        (insert_represented_points [([10], 2), ([191/10], 3)]
          (merge_clusters 5 (1/2) (getC (cure_init c4_data) 0)
            (getC (cure_init c4_data) 1)) 4)
        (getC (cure_init c4_data) 2) 2 (getC (cure_init c4_data) 2).distance =
      (none, none) ∧
    (getC (cure_init c4_data) 2).distance = some 81 ∧
    some 3 ≠ (some 4 : Option Nat) := by
  refine ⟨by decide, by decide, by decide, by decide, by decide⟩

/-- C5: the claim states that each representative after the first is the
not-yet-selected point farthest from the most recently selected
representative.  Merging the cluster `{[0], [10]}` with the singleton `{[4]}`
under a cap of `3` representatives and no shrinking, the implementation
(which always measures distance to `temporary[0]`, the first selected
candidate) selects `[[10], [0]]`, while the specification's rule selects
`[[10], [0], [4]]`:  the two selections differ. -/
theorem C5_most_recent_counterexample :
    (merge_clusters 3 0 c5_clusterA c5_clusterB).rep = [[10], [0]] ∧
    spec_select_representors 3 (c5_clusterA.points ++ c5_clusterB.points)
        (merge_clusters 3 0 c5_clusterA c5_clusterB).mean = [[10], [0], [4]] ∧
    ([[10], [0]] : List Point) ≠ [[10], [0], [4]] := by
  refine ⟨by decide, by decide, by decide⟩

/-- C7: the claim (and the docstring of `cure.__insert_cluster`) state that
the frontier queue is sorted ascending by the cached distance at the start of
every round.  On `c7_data`, after the first round the queue's cached
distances are `[441/100, 441/100, 1681/400, 1681/400, 121/25, 121/25]`:
the third entry is strictly smaller than the second, so the queue is not
sorted.  The cause: the cluster at `[-2]` is repaired to a strictly larger
cached distance but still occupies its old position when the merged cluster
is inserted, which corrupts the insertion point; the subsequent relocations
do not restore sortedness. -/
theorem C7_unsorted_after_round :
    (round_step 5 (1/2) (cure_init c7_data)).map (fun s' =>
        s'.queue.map (fun i => (getC s' i).distance)) =
      some [some (441/100), some (441/100), some (1681/400), some (1681/400),
            some (121/25), some (121/25)] ∧
    dlt (some (1681/400)) (some (441/100)) = true := by
  refine ⟨by decide, by decide⟩

/-- C8: the claim states that construction fails fast with a descriptive
error on invalid configuration or degenerate input.  The constructor performs
no validation at all: an empty point sequence is accepted and yields an empty
result, `number_cluster = 0` is accepted at construction and only crashes
later inside `process`, and `number_cluster` larger than the input size is
accepted and silently yields fewer clusters than requested. -/
theorem C8_no_validation_counterexample :
    cure_process [] 1 5 (1/2) = some [] ∧
    cure_process [[0]] 0 5 (1/2) = none ∧
    cure_process [[0], [1]] 5 5 (1/2) = some [[[0]], [[1]]] := by
  refine ⟨by decide, by decide, by decide⟩


/-- Inserting into the queue yields a permutation of consing the element. -/
theorem insert_cluster_perm (key : Nat → Dist) (l : List Nat) (i : Nat) :
    (insert_cluster key l i).Perm (i :: l) := by
  induction l with
  | nil => simp [insert_cluster]
  | cons j rest ih =>
    by_cases h : dlt (key i) (key j) = true
    · simp [insert_cluster, h]
    · simp only [insert_cluster, Bool.not_eq_true] at *
      rw [if_neg (by simp [h])]
      exact (ih.cons j).trans (List.Perm.swap i j rest)

/-- A successful `list.remove` means the element was present and the first
occurrence was erased. -/
theorem remove_first_eq {l l' : List Nat} {i : Nat}
    (h : remove_first l i = some l') : i ∈ l ∧ l' = l.erase i := by
  by_cases hm : i ∈ l
  · rw [remove_first, if_pos hm] at h
    exact ⟨hm, (Option.some_inj.mp h).symm⟩
  · rw [remove_first, if_neg hm] at h
    cases h

/-- A successful relocation permutes the queue. -/
theorem relocate_cluster_perm {key : Nat → Dist} {q q' : List Nat} {i : Nat}
    (h : relocate_cluster key q i = some q') : q'.Perm q := by
  rcases hrm : remove_first q i with _ | q1
  · rw [relocate_cluster, hrm] at h; cases h
  · rw [relocate_cluster, hrm] at h
    obtain ⟨hm, rfl⟩ := remove_first_eq hrm
    cases Option.some_inj.mp h
    exact ((insert_cluster_perm key (q.erase i) i).trans
      (List.perm_cons_erase hm).symm)

/-- A successful sequence of relocations permutes the queue. -/
theorem relocations_perm (key : Nat → Dist) :
    ∀ (reqs : List Nat) (q q' : List Nat),
      reqs.foldlM (fun q item => relocate_cluster key q item) q = some q' →
      q'.Perm q := by
  intro reqs
  induction reqs with
  | nil =>
    intro q q' h
    obtain rfl : q = q' := Option.some_inj.mp h
    exact List.Perm.refl _
  | cons x xs ih =>
    intro q q' h
    rw [List.foldlM_cons] at h
    rcases hx : relocate_cluster key q x with _ | q1
    · rw [hx] at h; cases h
    · rw [hx] at h
      exact (ih q1 q' h).trans (relocate_cluster_perm hx)

/-- The modelled stable sort permutes its input. -/
theorem sort_queue_perm (key : Nat → Dist) (l : List Nat) :
    (sort_queue key l).Perm l := by
  suffices h : ∀ (l acc : List Nat), (l.foldl (insert_cluster key) acc).Perm (acc ++ l) by
    simpa using h l []
  intro l
  induction l with
  | nil => intro acc; simp
  | cons x xs ih =>
    intro acc
    have h1 : (xs.foldl (insert_cluster key) (insert_cluster key acc x)).Perm
        (insert_cluster key acc x ++ xs) := ih _
    have h2 : (insert_cluster key acc x ++ xs).Perm ((x :: acc) ++ xs) :=
      (insert_cluster_perm key acc x).append_right xs
    exact (h1.trans h2).trans List.perm_middle.symm

/-- The initial queue enumerates one singleton cluster per input point. -/
theorem cure_init_queue_length (data : List Point) :
    (cure_init data).queue.length = data.length := by
  have h : (cure_init data).queue =
      sort_queue (fun i => (((create_queue data).1).getD i default).distance)
        (List.range data.length) := rfl
  rw [h, (sort_queue_perm _ _).length_eq, List.length_range]

/-- C8 (amended): construction performs no validation and never fails; in
particular, when the requested cluster count is at least the number of input
points, processing silently returns one cluster per input point instead of
failing fast — including the degenerate empty input, and any representative
cap or compression value. -/
theorem C8_amended_no_validation (data : List Point) (number_cluster : Nat)
    (number_represent_points : Nat) (compression : ℚ)
    (h : data.length ≤ number_cluster) :
    ∃ out, cure_process data number_cluster number_represent_points compression =
        some out ∧ out.length = data.length := by
  have hlen := cure_init_queue_length data
  have hnot : ¬ (number_cluster < (cure_init data).queue.length) := by omega
  have hstop : ∀ (fuel : Nat) (s : cure_state),
      ¬ (number_cluster < s.queue.length) →
      process_loop number_represent_points compression number_cluster fuel s =
        some s := by
    intro fuel s hs
    cases fuel with
    | zero => rw [process_loop, if_neg hs]
    | succ m => rw [process_loop, if_neg hs]
  have hloop := hstop (cure_init data).queue.length (cure_init data) hnot
  refine ⟨(cure_init data).queue.map (fun i => (getC (cure_init data) i).points),
    ?_, ?_⟩
  · rw [cure_process, hloop, Option.map_some']
  · rw [List.length_map, hlen]

/-- Witness for the amended C8: requesting five clusters from two points is
accepted without any error and yields the two singleton clusters. -/
theorem C8_amended_no_validation_witness :
    (2 : Nat) ≤ 5 ∧
    ∃ out, cure_process [[0], [1]] 5 5 (1/2) = some out ∧ out.length = 2 :=
  ⟨by decide, C8_amended_no_validation [[0], [1]] 5 5 (1/2) (by decide)⟩

/-- Inversion of a successful merge round: it names the two merged clusters,
the surviving queue, the intermediate trees, and expresses the resulting
state through the scan-and-repair fold. -/
theorem round_step_inv (R : Nat) (comp : ℚ) (s s' : cure_state)
    (h : round_step R comp s = some s') :
    ∃ (i1 i2 : Nat) (rest : List Nat) (t1 t2 : List (Point × Nat)) (q4 : List Nat),
      s.queue = i1 :: rest ∧
      (getC s i1).closest = some i2 ∧
      i1 ∈ s.queue ∧ i2 ∈ s.queue.erase i1 ∧
      delete_represented_points s.tree (getC s i1) = some t1 ∧
      delete_represented_points t1 (getC s i2) = some t2 ∧
      (let q2 := (s.queue.erase i1).erase i2
       let merged0 := merge_clusters R comp (getC s i1) (getC s i2)
       let mIdx := s.arena.length
       let tree3 := insert_represented_points t2 merged0 mIdx
       let result := q2.foldl (repair_acc i1 i2 mIdx tree3) (scan_start s merged0 q2)
       let arena2 := result.2.1 ++ [result.1]
       let key := fun i => (arena2.getD i default).distance
       result.2.2.foldlM (fun q item => relocate_cluster key q item)
           (insert_cluster key q2 mIdx) = some q4 ∧
       s' = { arena := arena2, queue := q4, tree := tree3 }) := by
  simp only [round_step] at h
  split at h
  · cases h
  · rename_i i1 rest heq
    split at h
    · cases h
    · rename_i i2 hclosest
      split at h
      · cases h
      · rename_i q1 hq1
        split at h
        · cases h
        · rename_i q2 hq2
          split at h
          · cases h
          · rename_i t1 ht1
            split at h
            · cases h
            · rename_i t2 ht2
              obtain ⟨hm1, rfl⟩ := remove_first_eq hq1
              obtain ⟨hm2, rfl⟩ := remove_first_eq hq2
              split at h
              · cases h
              · rename_i q4 hq4
                refine ⟨i1, i2, rest, t1, t2, q4, heq, hclosest, hm1, hm2,
                  ht1, ht2, hq4, (Option.some_inj.mp h).symm⟩

/-- Setting an arena slot to a cluster with the same member points does not
change any slot's member points. -/
theorem getD_set_points (a : List cure_cluster) (k : Nat) (v : cure_cluster)
    (hv : v.points = (a.getD k default).points) (n : Nat) :
    ((a.set k v).getD n default).points = (a.getD n default).points := by
  rw [List.getD_eq_getElem?_getD, List.getD_eq_getElem?_getD, List.getElem?_set]
  rcases eq_or_ne k n with rfl | hne
  · rw [if_pos rfl]
    by_cases hk : k < a.length
    · rw [if_pos hk, Option.getD_some, hv, List.getD_eq_getElem?_getD]
    · rw [if_neg hk, Option.getD_none,
        List.getElem?_eq_none (by omega), Option.getD_none]
  · rw [if_neg hne]

/-- Each step of the scan-and-repair fold keeps the merged cluster's points
and representatives, the arena length, and every slot's member points. -/
theorem repair_acc_points (i1 i2 mIdx : Nat) (tree3 : List (Point × Nat))
    (acc : cure_cluster × List cure_cluster × List Nat) (item : Nat) :
    (repair_acc i1 i2 mIdx tree3 acc item).1.points = acc.1.points ∧
    (repair_acc i1 i2 mIdx tree3 acc item).1.rep = acc.1.rep ∧
    (repair_acc i1 i2 mIdx tree3 acc item).2.1.length = acc.2.1.length ∧
    ∀ n : Nat, ((repair_acc i1 i2 mIdx tree3 acc item).2.1.getD n default).points
      = (acc.2.1.getD n default).points := by
  unfold repair_acc
  dsimp only
  refine ⟨?_, ?_, ?_, ?_⟩
  · repeat' split
    all_goals rfl
  · repeat' split
    all_goals rfl
  · repeat' split
    all_goals first | rfl | exact List.length_set _ _ _
  · intro n
    repeat' split
    all_goals first | rfl | (refine getD_set_points _ _ _ ?_ n; rfl)

/-- Through the whole scan-and-repair fold the merged cluster's points and
representatives, the arena length, and every slot's member points are
unchanged. -/
theorem repair_foldl_points (i1 i2 mIdx : Nat) (tree3 : List (Point × Nat))
    (l : List Nat) (acc : cure_cluster × List cure_cluster × List Nat) :
    (l.foldl (repair_acc i1 i2 mIdx tree3) acc).1.points = acc.1.points ∧
    (l.foldl (repair_acc i1 i2 mIdx tree3) acc).1.rep = acc.1.rep ∧
    (l.foldl (repair_acc i1 i2 mIdx tree3) acc).2.1.length = acc.2.1.length ∧
    ∀ n : Nat, ((l.foldl (repair_acc i1 i2 mIdx tree3) acc).2.1.getD n default).points
      = (acc.2.1.getD n default).points := by
  induction l generalizing acc with
  | nil => exact ⟨rfl, rfl, rfl, fun _ => rfl⟩
  | cons x xs ih =>
    obtain ⟨hp, hr, hl, hn⟩ := repair_acc_points i1 i2 mIdx tree3 acc x
    obtain ⟨ihp, ihr, ihl, ihn⟩ := ih (repair_acc i1 i2 mIdx tree3 acc x)
    exact ⟨ihp.trans hp, ihr.trans hr, ihl.trans hl,
      fun n => (ihn n).trans (hn n)⟩

/-- Reading the slot just appended to the arena. -/
theorem getD_append_length (l : List cure_cluster) (x : cure_cluster) :
    (l ++ [x]).getD l.length default = x := by
  rw [List.getD_eq_getElem?_getD, List.getElem?_append, if_neg (lt_irrefl _)]
  simp

/-- Reading an old arena slot after appending. -/
theorem getD_append_lt (l : List cure_cluster) (x : cure_cluster) (i : Nat)
    (h : i < l.length) : (l ++ [x]).getD i default = l.getD i default := by
  rw [List.getD_eq_getElem?_getD, List.getD_eq_getElem?_getD,
    List.getElem?_append, if_pos h]

/-- One successful merge round conserves the multiset of member points held
across the queue, and keeps every queue index inside the arena. -/
theorem round_step_conservation (R : Nat) (comp : ℚ) (s s' : cure_state)
    (hq : ∀ i ∈ s.queue, i < s.arena.length)
    (h : round_step R comp s = some s') :
    queue_points s'.arena s'.queue = queue_points s.arena s.queue ∧
    (∀ i ∈ s'.queue, i < s'.arena.length) := by
  obtain ⟨i1, i2, rest, t1, t2, q4, hqueue, hclosest, hm1, hm2, ht1, ht2, hrest⟩ :=
    round_step_inv R comp s s' h
  obtain ⟨hfold, hs'⟩ := hrest
  subst hs'
  dsimp only
  set q2 := (s.queue.erase i1).erase i2 with hq2def
  set merged0 := merge_clusters R comp (getC s i1) (getC s i2) with hm0def
  set tree3 := insert_represented_points t2 merged0 s.arena.length with ht3def
  set result := q2.foldl (repair_acc i1 i2 s.arena.length tree3)
    (scan_start s merged0 q2) with hresdef
  have hstart_arena : (scan_start s merged0 q2).2.1 = s.arena := by
    rcases q2 with _ | ⟨j, js⟩ <;> rfl
  have hstart_pts : (scan_start s merged0 q2).1.points = merged0.points := by
    rcases q2 with _ | ⟨j, js⟩ <;> rfl
  obtain ⟨hrpts, hrrep, hrlen, hrall⟩ :=
    repair_foldl_points i1 i2 s.arena.length tree3 q2 (scan_start s merged0 q2)
  rw [← hresdef] at hrpts hrrep hrlen hrall
  have hlen2 : result.2.1.length = s.arena.length := by
    rw [hrlen, hstart_arena]
  have hq2sub : ∀ i ∈ q2, i < s.arena.length := by
    intro i hi
    exact hq i ((List.erase_sublist i1 s.queue).subset
      ((List.erase_sublist i2 (s.queue.erase i1)).subset hi))
  -- the final queue is a permutation of the merged index consed on q2
  have hq4 : q4.Perm (s.arena.length :: q2) :=
    (relocations_perm _ _ _ _ hfold).trans (insert_cluster_perm _ q2 _)
  constructor
  · -- multiset conservation
    have hmain : queue_points (result.2.1 ++ [result.1]) q4 =
        queue_points (result.2.1 ++ [result.1]) (s.arena.length :: q2) :=
      List.Perm.sum_eq (hq4.map _)
    simp only [queue_points] at hmain ⊢
    rw [hmain, List.map_cons, List.sum_cons]
    have hmerged : ((result.2.1 ++ [result.1]).getD s.arena.length default) =
        result.1 := by
      have := getD_append_length result.2.1 result.1
      rwa [hlen2] at this
    have hq2pts : ∀ i ∈ q2,
        (((result.2.1 ++ [result.1]).getD i default).points : Multiset Point) =
        ((s.arena.getD i default).points : Multiset Point) := by
      intro i hi
      rw [getD_append_lt _ _ _ (by rw [hlen2]; exact hq2sub i hi), hrall i,
        hstart_arena]
    rw [List.map_congr_left hq2pts, hmerged, hrpts, hstart_pts]
    have hmpts : merged0.points = (getC s i1).points ++ (getC s i2).points := rfl
    rw [hmpts]
    -- right-hand side: peel i1 and i2 off the original queue
    have hperm1 : s.queue.Perm (i1 :: s.queue.erase i1) := List.perm_cons_erase hm1
    have hperm2 : (s.queue.erase i1).Perm (i2 :: q2) := List.perm_cons_erase hm2
    have hrhs : (s.queue.map (fun i =>
        ((s.arena.getD i default).points : Multiset Point))).sum =
        ((s.arena.getD i1 default).points : Multiset Point) +
        (((s.arena.getD i2 default).points : Multiset Point) +
          (q2.map (fun i =>
            ((s.arena.getD i default).points : Multiset Point))).sum) := by
      rw [List.Perm.sum_eq (hperm1.map _), List.map_cons, List.sum_cons,
        List.Perm.sum_eq (hperm2.map _), List.map_cons, List.sum_cons]
    rw [hrhs, ← Multiset.coe_add, getC, getC]
    exact (add_assoc _ _ _)
  · -- queue indices stay inside the arena
    intro i hi
    have hmem : i ∈ s.arena.length :: q2 := hq4.mem_iff.mp hi
    simp only [List.mem_cons] at hmem
    have hlen' : (result.2.1 ++ [result.1]).length = s.arena.length + 1 := by
      simp [List.length_append, hlen2]
    show i < (result.2.1 ++ [result.1]).length
    rw [hlen']
    rcases hmem with rfl | hiq
    · omega
    · have := hq2sub i hiq
      omega

/-- Every initial queue index denotes an arena slot. -/
theorem cure_init_queue_range (data : List Point) :
    ∀ i ∈ (cure_init data).queue, i < (cure_init data).arena.length := by
  intro i hi
  have hperm : (cure_init data).queue.Perm (List.range data.length) :=
    sort_queue_perm _ _
  have : i ∈ List.range data.length := hperm.subset hi
  have hlt := List.mem_range.mp this
  have hlen : (cure_init data).arena.length = data.length := by
    show ((List.range data.length).map _).length = data.length
    rw [List.length_map, List.length_range]
  omega

/-- Each initial cluster owns exactly its input point. -/
theorem cure_init_points (data : List Point) (i : Nat) (h : i < data.length) :
    ((cure_init data).arena.getD i default).points = [data.getD i []] := by
  have harena : (cure_init data).arena =
      (List.range data.length).map
        (initial_cluster (data.map cure_cluster.single) data.length) := rfl
  rw [harena, List.getD_eq_getElem?_getD, List.getElem?_map,
    List.getElem?_range h, Option.map_some', Option.getD_some]
  have hpts : (initial_cluster (data.map cure_cluster.single) data.length i).points
      = ((data.map cure_cluster.single).getD i default).points := rfl
  rw [hpts, List.getD_eq_getElem?_getD, List.getElem?_map,
    List.getElem?_eq_getElem h, Option.map_some', Option.getD_some]
  show [data[i]] = [data.getD i []]
  rw [List.getD_eq_getElem?_getD, List.getElem?_eq_getElem h, Option.getD_some]

/-- Summing the singleton multisets of a list of points gives the list's
multiset. -/
theorem sum_singletons (data : List Point) :
    (data.map (fun p => ([p] : Multiset Point))).sum = (data : Multiset Point) := by
  induction data with
  | nil => rfl
  | cons d ds ih =>
    rw [List.map_cons, List.sum_cons, ih]
    show ((([d] : List Point) : Multiset Point) + ↑ds) = _
    rw [Multiset.coe_add]
    rfl

/-- The initial queue holds the input multiset. -/
theorem cure_init_conservation (data : List Point) :
    queue_points (cure_init data).arena (cure_init data).queue =
      (data : Multiset Point) := by
  have hperm : (cure_init data).queue.Perm (List.range data.length) :=
    sort_queue_perm _ _
  rw [queue_points, List.Perm.sum_eq (hperm.map _)]
  have hmaps : (List.range data.length).map (fun i =>
      (((cure_init data).arena.getD i default).points : Multiset Point)) =
      data.map (fun p => ([p] : Multiset Point)) := by
    apply List.ext_getElem
    · rw [List.length_map, List.length_range, List.length_map]
    · intro n h1 h2
      rw [List.length_map, List.length_range] at h1
      rw [List.getElem_map, List.getElem_range, List.getElem_map]
      rw [cure_init_points data n h1]
      congr 1
      rw [List.getD_eq_getElem?_getD, List.getElem?_eq_getElem h1,
        Option.getD_some]
  rw [hmaps, sum_singletons]

/-- Multiset cardinality distributes over a list sum. -/
theorem card_list_sum (l : List (Multiset Point)) :
    Multiset.card l.sum = (l.map Multiset.card).sum := by
  induction l with
  | nil => rfl
  | cons x xs ih => rw [List.sum_cons, List.map_cons, List.sum_cons,
      Multiset.card_add, ih]

/-- The whole merge loop conserves the queue's point multiset. -/
theorem process_loop_conservation (R : Nat) (comp : ℚ) (k : Nat) :
    ∀ (fuel : Nat) (s sF : cure_state),
      (∀ i ∈ s.queue, i < s.arena.length) →
      process_loop R comp k fuel s = some sF →
      queue_points sF.arena sF.queue = queue_points s.arena s.queue := by
  intro fuel
  induction fuel with
  | zero =>
    intro s sF hq h
    rw [process_loop] at h
    split at h
    · cases h
    · obtain rfl : s = sF := Option.some_inj.mp h
      rfl
  | succ m ih =>
    intro s sF hq h
    rw [process_loop] at h
    split at h
    · rcases hr : round_step R comp s with _ | s'
      · rw [hr] at h; cases h
      · rw [hr] at h
        obtain ⟨hcons, hrange⟩ := round_step_conservation R comp s s' hq hr
        exact (ih s' sF hrange h).trans hcons
    · obtain rfl : s = sF := Option.some_inj.mp h
      rfl

/-- C2: whenever processing succeeds, the multiset union of the member points
of the returned clusters equals the input point multiset exactly — no point
is duplicated or lost — and consequently the cluster sizes sum to the input
size. -/
theorem C2_points_conserved (data : List Point) (number_cluster : Nat)
    (number_represent_points : Nat) (compression : ℚ) (out : List (List Point))
    (h : cure_process data number_cluster number_represent_points compression =
      some out) :
    (out.map Multiset.ofList).sum = (data : Multiset Point) ∧
    (out.map List.length).sum = data.length := by
  rw [cure_process] at h
  rcases hloop : process_loop number_represent_points compression number_cluster
      (cure_init data).queue.length (cure_init data) with _ | sF
  · rw [hloop] at h; cases h
  · rw [hloop, Option.map_some'] at h
    obtain rfl : sF.queue.map (fun i => (getC sF i).points) = out :=
      Option.some_inj.mp h
    have hcons := process_loop_conservation number_represent_points compression
      number_cluster (cure_init data).queue.length (cure_init data) sF
      (cure_init_queue_range data) hloop
    have hsum : ((sF.queue.map (fun i => (getC sF i).points)).map
        Multiset.ofList).sum = (data : Multiset Point) := by
      rw [List.map_map, ← cure_init_conservation data, ← hcons]
      rfl
    refine ⟨hsum, ?_⟩
    have hcard := congrArg Multiset.card hsum
    rw [card_list_sum, Multiset.coe_card, List.map_map] at hcard
    rw [← hcard]
    congr 1

/-- Witness for C2: a concrete successful run on two points returns one
cluster holding both points, conserving the multiset and the size. -/
theorem C2_points_conserved_witness :
    cure_process [[0], [1]] 1 5 (1/2) = some [[[0], [1]]] ∧
    (([[[0], [1]]] : List (List Point)).map Multiset.ofList).sum =
      (([[0], [1]] : List Point) : Multiset Point) ∧
    (([[[0], [1]]] : List (List Point)).map List.length).sum =
      ([[0], [1]] : List Point).length := by
  have h : cure_process [[0], [1]] 1 5 (1/2) = some [[[0], [1]]] := by decide
  exact ⟨h, C2_points_conserved [[0], [1]] 1 5 (1/2) [[[0], [1]]] h⟩

/-- The squared Euclidean distance is nonnegative. -/
theorem euclidean_distance_sq_nonneg (a b : Point) :
    0 ≤ euclidean_distance_sq a b := by
  induction a generalizing b with
  | nil => rw [euclidean_distance_sq]; simp
  | cons x xs ih =>
    cases b with
    | nil => rw [euclidean_distance_sq]; simp
    | cons y ys =>
      have ih' := ih ys
      rw [euclidean_distance_sq] at ih' ⊢
      rw [List.zipWith_cons_cons, List.sum_cons]
      have h1 : 0 ≤ (x - y) * (x - y) := mul_self_nonneg _
      linarith

/-- On a nonempty candidate list the running-maximum scan selects a point. -/
theorem max_dist_point_isSome (points : List Point) (anchor : Point)
    (h : points ≠ []) : ∃ p, (max_dist_point points anchor).2 = some p := by
  have haux : ∀ (rest : List Point) (acc : ℚ × Option Point) (q : Point),
      acc.2 = some q →
      ∃ p, (rest.foldl (fun acc point =>
        let md := euclidean_distance_sq point anchor
        if decide (acc.1 ≤ md) then (md, some point) else acc) acc).2 = some p := by
    intro rest
    induction rest with
    | nil => intro acc q hq; exact ⟨q, hq⟩
    | cons x xs ih =>
      intro acc q hq
      rw [List.foldl_cons]
      by_cases hc : decide (acc.1 ≤ euclidean_distance_sq x anchor) = true
      · exact ih _ x (by simp [hc])
      · exact ih _ q (by simp [hc, hq])
  cases points with
  | nil => exact absurd rfl h
  | cons x xs =>
    rw [max_dist_point, List.foldl_cons]
    apply haux xs _ x
    simp [decide_eq_true_eq, euclidean_distance_sq_nonneg]

/-- With no candidate points every selection iteration is a no-op. -/
theorem select_step_empty (mean : Point) (temporary : List Point) (index : Nat) :
    select_step [] mean temporary index = temporary := by
  rw [select_step]
  rcases hi : (index == 0) <;> simp [hi, max_dist_point]

/-- After the first pick, the selection loop is exactly the first-anchored
iteration: every later index measures distance to `temporary[0]`. -/
theorem foldl_select_eq_iter (points : List Point) (mean t0 : Point) :
    ∀ (idxs : List Nat) (temp : List Point),
      (∀ i ∈ idxs, i ≠ 0) → temp ≠ [] → temp.getD 0 [] = t0 →
      idxs.foldl (select_step points mean) temp =
        first_anchor_iter points t0 idxs.length temp := by
  intro idxs
  induction idxs with
  | nil => intro temp _ _ _; rfl
  | cons i is ih =>
    intro temp hnz hne hgd
    have hi : (i == 0) = false := by
      simpa using hnz i (List.mem_cons_self i is)
    rw [List.foldl_cons, List.length_cons]
    have hstep : select_step points mean temp i =
        match (max_dist_point points t0).2 with
        | some p => if p ∈ temp then temp else temp ++ [p]
        | none => temp := by
      rw [select_step, hi]
      simp only [Bool.false_eq_true, if_false, hgd]
    rcases hmax : (max_dist_point points t0).2 with _ | p
    · rw [hstep, hmax]
      rw [show first_anchor_iter points t0 (is.length + 1) temp =
        first_anchor_iter points t0 is.length temp from by
          rw [first_anchor_iter, hmax]]
      exact ih temp (fun j hj => hnz j (List.mem_cons_of_mem i hj)) hne hgd
    · rw [hstep, hmax]
      rw [show first_anchor_iter points t0 (is.length + 1) temp =
        first_anchor_iter points t0 is.length (if p ∈ temp then temp else temp ++ [p])
        from by rw [first_anchor_iter, hmax]]
      have hne' : (if p ∈ temp then temp else temp ++ [p]) ≠ [] := by
        split
        · exact hne
        · rcases temp with _ | ⟨a, b⟩ <;> simp
      have hgd' : (if p ∈ temp then temp else temp ++ [p]).getD 0 [] = t0 := by
        split
        · exact hgd
        · rcases temp with _ | ⟨a, b⟩
          · exact absurd rfl hne
          · exact hgd
      exact ih _ (fun j hj => hnz j (List.mem_cons_of_mem i hj)) hne' hgd'

/-- The selection loop of `merge_clusters` computes exactly the
first-anchored selection. -/
theorem merge_temporary (R : Nat) (points : List Point) (mean : Point) :
    (List.range R).foldl (select_step points mean) [] =
      first_anchor_select R points mean := by
  cases R with
  | zero => rfl
  | succ n =>
    by_cases hpts : points = []
    · subst hpts
      have hfold : ∀ (idxs : List Nat) (temp : List Point),
          idxs.foldl (select_step [] mean) temp = temp := by
        intro idxs
        induction idxs with
        | nil => intro temp; rfl
        | cons i is ih => intro temp; rw [List.foldl_cons, select_step_empty]; exact ih temp
      rw [hfold]
      rw [first_anchor_select]
      rcases hmax : (max_dist_point [] mean).2 with _ | p
      · rfl
      · cases hmax
    · obtain ⟨t0, hmax⟩ := max_dist_point_isSome points mean hpts
      rw [List.range_succ_eq_map, List.foldl_cons]
      have hstep0 : select_step points mean [] 0 = [t0] := by
        rw [select_step]
        simp only [beq_self_eq_true, if_true, hmax]
        rfl
      rw [hstep0]
      have hall : ∀ i ∈ (List.range n).map Nat.succ, i ≠ 0 := by
        intro i hi
        obtain ⟨j, _, rfl⟩ := List.mem_map.mp hi
        exact Nat.succ_ne_zero j
      rw [foldl_select_eq_iter points mean t0 _ [t0] hall (by simp) rfl]
      rw [List.length_map, List.length_range]
      rw [first_anchor_select, hmax]

/-- Once the fixed farthest point is already selected, the first-anchored
iteration changes nothing. -/
theorem first_anchor_iter_stable (points : List Point) (t0 p : Point)
    (hmax : (max_dist_point points t0).2 = some p) :
    ∀ (n : Nat) (temp : List Point), p ∈ temp →
      first_anchor_iter points t0 n temp = temp := by
  intro n
  induction n with
  | zero => intro temp _; rfl
  | succ m ih =>
    intro temp hp
    rw [first_anchor_iter, hmax]
    dsimp only
    rw [if_pos hp]
    exact ih temp hp

/-- The first-anchored iteration adds at most one point, ever: it keeps
recomputing the same farthest point, which the duplicate check then refuses
to append again. -/
theorem first_anchor_iter_length (points : List Point) (t0 : Point) :
    ∀ (n : Nat) (temp : List Point),
      (first_anchor_iter points t0 n temp).length ≤ temp.length + 1 := by
  intro n
  induction n with
  | zero => intro temp; exact Nat.le_succ _
  | succ m ih =>
    intro temp
    rcases hmax : (max_dist_point points t0).2 with _ | p
    · rw [first_anchor_iter, hmax]
      exact ih temp
    · rw [first_anchor_iter, hmax]
      dsimp only
      by_cases hp : p ∈ temp
      · rw [if_pos hp, first_anchor_iter_stable points t0 p hmax m temp hp]
        omega
      · rw [if_neg hp,
          first_anchor_iter_stable points t0 p hmax m (temp ++ [p]) (by simp)]
        simp

/-- C5 (amended): the representative candidates are selected by iterations
that measure distance to the FIRST selected representative (`temporary[0]`),
not to the most recently selected one: the first candidate is the member
point farthest from the merged mean, every subsequent iteration recomputes
the member point farthest from that first candidate (ties broken in favour of
the point seen last, via a running maximum updated on greater-or-equal) and
appends it only if it is not already selected, stopping after
`number_represent_points` iterations; each selected candidate is then shrunk
toward the mean. -/
theorem C5_amended_first_anchor (number_represent_points : Nat) (compression : ℚ)
    (cluster1 cluster2 : cure_cluster) :
    (merge_clusters number_represent_points compression cluster1 cluster2).rep =
      (first_anchor_select number_represent_points
          (cluster1.points ++ cluster2.points)
          (merge_clusters number_represent_points compression cluster1 cluster2).mean).map
        (fun point => (List.range cluster1.mean.length).map (fun index =>
          point.getD index 0 + compression *
            ((merge_clusters number_represent_points compression
                cluster1 cluster2).mean.getD index 0 - point.getD index 0))) := by
  show ((List.range number_represent_points).foldl
      (select_step (cluster1.points ++ cluster2.points)
        (merge_clusters number_represent_points compression cluster1 cluster2).mean)
      []).map _ = _
  rw [merge_temporary]
  rfl

/-- C6: for every merged pair and every representative cap of at least two,
the merged cluster carries at most two representative points: every selection
iteration after the first measures distance to the first selected candidate,
hence keeps finding the same farthest point, and the duplicate check refuses
to append it again. -/
theorem C6_rep_cap_two (number_represent_points : Nat) (compression : ℚ)
    (cluster1 cluster2 : cure_cluster) (hR : 2 ≤ number_represent_points) :
    (merge_clusters number_represent_points compression cluster1 cluster2).rep.length
      ≤ 2 := by
  show (((List.range number_represent_points).foldl
      (select_step (cluster1.points ++ cluster2.points)
        (merge_clusters number_represent_points compression cluster1 cluster2).mean)
      []).map _).length ≤ 2
  rw [List.length_map, merge_temporary]
  rcases number_represent_points with _ | n
  · simp [first_anchor_select]
  · rw [first_anchor_select]
    rcases hmax : (max_dist_point (cluster1.points ++ cluster2.points)
        (merge_clusters (n + 1) compression cluster1 cluster2).mean).2 with _ | t0
    · simp
    · dsimp only
      have := first_anchor_iter_length (cluster1.points ++ cluster2.points) t0 n [t0]
      simpa using this

/-- Witness for C6: merging the concrete clusters from the C5 comparison with
a cap of five representatives yields at most two representative points. -/
theorem C6_rep_cap_two_witness :
    2 ≤ 5 ∧ (merge_clusters 5 0 c5_clusterA c5_clusterB).rep.length ≤ 2 :=
  ⟨by decide, C6_rep_cap_two 5 0 c5_clusterA c5_clusterB (by decide)⟩

/-- Reading an index below the bound of a mapped range. -/
theorem getD_range_map (f : Nat → ℚ) (d i : Nat) (h : i < d) :
    ((List.range d).map f).getD i 0 = f i := by
  rw [List.getD_eq_getElem?_getD, List.getElem?_map, List.getElem?_range h,
    Option.map_some', Option.getD_some]

/-- An in-range `getD` lookup is a member of the list. -/
theorem getD_mem_of_lt (a : List cure_cluster) (i : Nat) (h : i < a.length) :
    a.getD i default ∈ a := by
  rw [List.getD_eq_getElem?_getD, List.getElem?_eq_getElem h, Option.getD_some]
  exact List.getElem_mem h

/-- The centroid of a single point of the right dimension is the point. -/
theorem centroid_single (dim : Nat) (p : Point) (h : p.length = dim) :
    centroid dim [p] = p := by
  rw [centroid]
  apply List.ext_getElem
  · rw [List.length_map, List.length_range, h]
  · intro n h1 h2
    rw [List.length_map, List.length_range] at h1
    rw [List.getElem_map, List.getElem_range]
    show (([p].map (fun q => q.getD n 0)).sum : ℚ) / (([p] : List Point).length : ℚ)
      = p[n]
    simp only [List.map_cons, List.map_nil, List.sum_cons, List.sum_nil, add_zero,
      List.length_cons, List.length_nil, zero_add, Nat.cast_one, div_one]
    rw [List.getD_eq_getElem?_getD, List.getElem?_eq_getElem h2, Option.getD_some]

/-- The size-weighted coordinate-wise average of the parents' means computed
by `merge_clusters` is the exact centroid of the concatenated member-point
list, whenever both parents are well formed. -/
theorem merge_mean_centroid (dim : Nat) (R : Nat) (comp : ℚ)
    (c1 c2 : cure_cluster) (h1 : cluster_wf dim c1) (h2 : cluster_wf dim c2) :
    (merge_clusters R comp c1 c2).mean = centroid dim (c1.points ++ c2.points) := by
  obtain ⟨hne1, hl1, hm1⟩ := h1
  obtain ⟨hne2, hl2, hm2⟩ := h2
  have hdim1 : c1.mean.length = dim := by
    rw [hm1, centroid, List.length_map, List.length_range]
  have hmean : (merge_clusters R comp c1 c2).mean =
      (List.range c1.mean.length).map (fun index =>
        ((c1.points.length : ℚ) * c1.mean.getD index 0 +
         (c2.points.length : ℚ) * c2.mean.getD index 0) /
        ((c1.points.length : ℚ) + (c2.points.length : ℚ))) := rfl
  rw [hmean, hdim1, centroid]
  apply List.map_congr_left
  intro i hi
  have hilt : i < dim := List.mem_range.mp hi
  have hn1 : ((c1.points.length : ℚ)) ≠ 0 :=
    Nat.cast_ne_zero.mpr (List.length_pos.mpr hne1).ne'
  have hn2 : ((c2.points.length : ℚ)) ≠ 0 :=
    Nat.cast_ne_zero.mpr (List.length_pos.mpr hne2).ne'
  have e1 : c1.mean.getD i 0 =
      (c1.points.map (fun p => p.getD i 0)).sum / (c1.points.length : ℚ) := by
    rw [hm1, centroid]
    exact getD_range_map _ dim i hilt
  have e2 : c2.mean.getD i 0 =
      (c2.points.map (fun p => p.getD i 0)).sum / (c2.points.length : ℚ) := by
    rw [hm2, centroid]
    exact getD_range_map _ dim i hilt
  rw [e1, e2, mul_div_cancel₀ _ hn1, mul_div_cancel₀ _ hn2,
    List.map_append, List.sum_append, List.length_append, Nat.cast_add]

/-- Merging two well-formed clusters yields a well-formed cluster. -/
theorem merge_clusters_wf (dim R : Nat) (comp : ℚ) (c1 c2 : cure_cluster)
    (h1 : cluster_wf dim c1) (h2 : cluster_wf dim c2) :
    cluster_wf dim (merge_clusters R comp c1 c2) := by
  have hpts : (merge_clusters R comp c1 c2).points = c1.points ++ c2.points := rfl
  unfold cluster_wf
  rw [hpts]
  refine ⟨?_, ?_, merge_mean_centroid dim R comp c1 c2 h1 h2⟩
  · intro hnil
    exact h1.1 (List.append_eq_nil.mp hnil).1
  · intro p hp
    rcases List.mem_append.mp hp with h | h
    · exact h1.2.1 p h
    · exact h2.2.1 p h

/-- Overwriting a slot with a cluster sharing its points and mean keeps every
slot of the arena well formed. -/
theorem mem_set_wf (dim : Nat) (a : List cure_cluster) (k : Nat)
    (v : cure_cluster) (hwf : ∀ c ∈ a, cluster_wf dim c)
    (hv : v.points = (a.getD k default).points)
    (hm : v.mean = (a.getD k default).mean) :
    ∀ c ∈ a.set k v, cluster_wf dim c := by
  intro c hc
  by_cases hk : k < a.length
  · rcases List.mem_or_eq_of_mem_set hc with h | rfl
    · exact hwf c h
    · have hw := hwf _ (getD_mem_of_lt a k hk)
      unfold cluster_wf at hw ⊢
      rw [hv, hm]
      exact hw
  · rw [List.set_eq_of_length_le (by omega)] at hc
    exact hwf c hc

/-- One step of the scan-and-repair fold keeps every arena slot well formed:
it only rewrites `closest` pointers and cached distances. -/
theorem repair_acc_wf (dim i1 i2 mIdx : Nat) (tree3 : List (Point × Nat))
    (acc : cure_cluster × List cure_cluster × List Nat) (item : Nat)
    (hwf : ∀ c ∈ acc.2.1, cluster_wf dim c) :
    ∀ c ∈ (repair_acc i1 i2 mIdx tree3 acc item).2.1, cluster_wf dim c := by
  unfold repair_acc
  dsimp only
  repeat' split
  all_goals first
    | exact hwf
    | exact mem_set_wf dim acc.2.1 item _ hwf rfl rfl

/-- The whole scan-and-repair fold keeps every arena slot well formed. -/
theorem repair_foldl_wf (dim i1 i2 mIdx : Nat) (tree3 : List (Point × Nat))
    (l : List Nat) :
    ∀ (acc : cure_cluster × List cure_cluster × List Nat),
      (∀ c ∈ acc.2.1, cluster_wf dim c) →
      ∀ c ∈ (l.foldl (repair_acc i1 i2 mIdx tree3) acc).2.1, cluster_wf dim c := by
  induction l with
  | nil => intro acc h; exact h
  | cons x xs ih =>
    intro acc h
    rw [List.foldl_cons]
    exact ih _ (repair_acc_wf dim i1 i2 mIdx tree3 acc x h)

/-- One step of the scan-and-repair fold keeps the merged cluster's mean. -/
theorem repair_acc_mean (i1 i2 mIdx : Nat) (tree3 : List (Point × Nat))
    (acc : cure_cluster × List cure_cluster × List Nat) (item : Nat) :
    (repair_acc i1 i2 mIdx tree3 acc item).1.mean = acc.1.mean := by
  unfold repair_acc
  dsimp only
  repeat' split
  all_goals rfl

/-- The whole scan-and-repair fold keeps the merged cluster's mean. -/
theorem repair_foldl_mean (i1 i2 mIdx : Nat) (tree3 : List (Point × Nat))
    (l : List Nat) :
    ∀ (acc : cure_cluster × List cure_cluster × List Nat),
      (l.foldl (repair_acc i1 i2 mIdx tree3) acc).1.mean = acc.1.mean := by
  induction l with
  | nil => intro acc; rfl
  | cons x xs ih =>
    intro acc
    rw [List.foldl_cons, ih]
    exact repair_acc_mean i1 i2 mIdx tree3 acc x

/-- A successful merge round keeps every arena cluster well formed. -/
theorem round_step_wf (dim : Nat) (R : Nat) (comp : ℚ) (s s' : cure_state)
    (hwf : ∀ c ∈ s.arena, cluster_wf dim c)
    (hq : ∀ i ∈ s.queue, i < s.arena.length)
    (h : round_step R comp s = some s') :
    ∀ c ∈ s'.arena, cluster_wf dim c := by
  obtain ⟨i1, i2, rest, t1, t2, q4, hqueue, hclosest, hm1, hm2, ht1, ht2, hrest⟩ :=
    round_step_inv R comp s s' h
  obtain ⟨hfold, hs'⟩ := hrest
  subst hs'
  dsimp only
  set q2 := (s.queue.erase i1).erase i2 with hq2def
  set merged0 := merge_clusters R comp (getC s i1) (getC s i2) with hm0def
  set tree3 := insert_represented_points t2 merged0 s.arena.length with ht3def
  set result := q2.foldl (repair_acc i1 i2 s.arena.length tree3)
    (scan_start s merged0 q2) with hresdef
  have hi1 : i1 < s.arena.length := hq i1 hm1
  have hi2 : i2 < s.arena.length :=
    hq i2 ((List.erase_sublist i1 s.queue).subset hm2)
  have hwf1 : cluster_wf dim (getC s i1) := hwf _ (getD_mem_of_lt s.arena i1 hi1)
  have hwf2 : cluster_wf dim (getC s i2) := hwf _ (getD_mem_of_lt s.arena i2 hi2)
  have hwfm : cluster_wf dim merged0 := merge_clusters_wf dim R comp _ _ hwf1 hwf2
  have hstart_arena : (scan_start s merged0 q2).2.1 = s.arena := by
    rcases q2 with _ | ⟨j, js⟩ <;> rfl
  have hstart_pts : (scan_start s merged0 q2).1.points = merged0.points := by
    rcases q2 with _ | ⟨j, js⟩ <;> rfl
  have hstart_mean : (scan_start s merged0 q2).1.mean = merged0.mean := by
    rcases q2 with _ | ⟨j, js⟩ <;> rfl
  intro c hc
  rcases List.mem_append.mp hc with hcl | hcr
  · refine repair_foldl_wf dim i1 i2 s.arena.length tree3 q2
      (scan_start s merged0 q2) ?_ c hcl
    rw [hstart_arena]
    exact hwf
  · have hceq : c = result.1 := by simpa using hcr
    subst hceq
    obtain ⟨hrpts, hrrep, hrlen, hrall⟩ :=
      repair_foldl_points i1 i2 s.arena.length tree3 q2 (scan_start s merged0 q2)
    rw [← hresdef] at hrpts
    have hmeane : result.1.mean = merged0.mean := by
      rw [hresdef, repair_foldl_mean, hstart_mean]
    have hptse : result.1.points = merged0.points := hrpts.trans hstart_pts
    unfold cluster_wf at hwfm ⊢
    rw [hptse, hmeane]
    exact hwfm

/-- The whole merge loop keeps every arena cluster well formed. -/
theorem process_loop_wf (dim : Nat) (R : Nat) (comp : ℚ) (k : Nat) :
    ∀ (fuel : Nat) (s sF : cure_state),
      (∀ c ∈ s.arena, cluster_wf dim c) →
      (∀ i ∈ s.queue, i < s.arena.length) →
      process_loop R comp k fuel s = some sF →
      ∀ c ∈ sF.arena, cluster_wf dim c := by
  intro fuel
  induction fuel with
  | zero =>
    intro s sF hwf hq h
    rw [process_loop] at h
    split at h
    · cases h
    · obtain rfl : s = sF := Option.some_inj.mp h
      exact hwf
  | succ m ih =>
    intro s sF hwf hq h
    rw [process_loop] at h
    split at h
    · rcases hr : round_step R comp s with _ | s'
      · rw [hr] at h; cases h
      · rw [hr] at h
        exact ih s' sF (round_step_wf dim R comp s s' hwf hq hr)
          (round_step_conservation R comp s s' hq hr).2 h
    · obtain rfl : s = sF := Option.some_inj.mp h
      exact hwf

/-- Every initial singleton cluster is well formed for the common dimension
of the input points. -/
theorem cure_init_wf (dim : Nat) (data : List Point)
    (hdim : ∀ p ∈ data, p.length = dim) :
    ∀ c ∈ (cure_init data).arena, cluster_wf dim c := by
  intro c hc
  have harena : (cure_init data).arena =
      (List.range data.length).map
        (initial_cluster (data.map cure_cluster.single) data.length) := rfl
  rw [harena] at hc
  obtain ⟨i, hi, rfl⟩ := List.mem_map.mp hc
  have hilt : i < data.length := List.mem_range.mp hi
  have hbase : (data.map cure_cluster.single).getD i default =
      cure_cluster.single (data.getD i []) := by
    rw [List.getD_eq_getElem?_getD, List.getElem?_map,
      List.getElem?_eq_getElem hilt, Option.map_some', Option.getD_some,
      List.getD_eq_getElem?_getD, List.getElem?_eq_getElem hilt, Option.getD_some]
  have hpts : (initial_cluster (data.map cure_cluster.single) data.length i).points
      = [data.getD i []] := by
    show ((data.map cure_cluster.single).getD i default).points = _
    rw [hbase]
    rfl
  have hmean : (initial_cluster (data.map cure_cluster.single) data.length i).mean
      = data.getD i [] := by
    show ((data.map cure_cluster.single).getD i default).mean = _
    rw [hbase]
    rfl
  have hdmem : data.getD i [] ∈ data := by
    rw [List.getD_eq_getElem?_getD, List.getElem?_eq_getElem hilt, Option.getD_some]
    exact List.getElem_mem hilt
  unfold cluster_wf
  refine ⟨by rw [hpts]; simp, ?_, ?_⟩
  · intro p hp
    rw [hpts] at hp
    simp only [List.mem_singleton] at hp
    subst hp
    exact hdim _ hdmem
  · rw [hpts, hmean, centroid_single dim _ (hdim _ hdmem)]

/-- C9: under exact rational arithmetic, every cluster's `mean` field is the
exact coordinate-wise centroid of its member points, at singleton creation
and after every merge: it holds for every cluster of the initial state, for
every cluster ever created during a successful run (the arena is append-only,
so the final arena contains every cluster of every step), and the
size-weighted coordinate-wise average of the two parents' means computed by
the merge equals the centroid of the concatenated member-point list. -/
theorem C9_mean_is_centroid (dim : Nat) (data : List Point)
    (number_cluster number_represent_points fuel : Nat) (compression : ℚ)
    (sF : cure_state)
    (hdim : ∀ p ∈ data, p.length = dim)
    (hrun : process_loop number_represent_points compression number_cluster fuel
        (cure_init data) = some sF) :
    (∀ c ∈ (cure_init data).arena, c.mean = centroid dim c.points) ∧
    (∀ c ∈ sF.arena, c.mean = centroid dim c.points) ∧
    (∀ c1 c2 : cure_cluster, cluster_wf dim c1 → cluster_wf dim c2 →
      (merge_clusters number_represent_points compression c1 c2).mean =
        centroid dim (c1.points ++ c2.points)) :=
  ⟨fun c hc => (cure_init_wf dim data hdim c hc).2.2,
   fun c hc => (process_loop_wf dim number_represent_points compression
     number_cluster fuel (cure_init data) sF (cure_init_wf dim data hdim)
     (cure_init_queue_range data) hrun c hc).2.2,
   fun c1 c2 h1 h2 => merge_mean_centroid dim number_represent_points
     compression c1 c2 h1 h2⟩

/-- Witness for C9: a full two-point run in dimension one, whose final arena
holds the two singletons and the merged cluster with mean `[1/2]`, the exact
centroid of `[[0], [1]]`. -/
theorem C9_mean_is_centroid_witness :
    ((∀ p ∈ ([[0], [1]] : List Point), p.length = 1) ∧
     process_loop 5 (1/2) 1 2 (cure_init [[0], [1]]) = some
       { arena := [{ points := [[0]], mean := [0], rep := [[0]],
                     closest := some 1, distance := some 1 },
                   { points := [[1]], mean := [1], rep := [[1]],
                     closest := some 0, distance := some 1 },
                   { points := [[0], [1]], mean := [1/2],
                     rep := [[3/4], [1/4]],
                     closest := none, distance := none }],
         queue := [2],
         tree := [([3/4], 2), ([1/4], 2)] }) ∧
    ((∀ c ∈ (cure_init [[0], [1]]).arena, c.mean = centroid 1 c.points) ∧
     (∀ c ∈ ({ arena := [{ points := [[0]], mean := [0], rep := [[0]],
                           closest := some 1, distance := some 1 },
                         { points := [[1]], mean := [1], rep := [[1]],
                           closest := some 0, distance := some 1 },
                         { points := [[0], [1]], mean := [1/2],
                           rep := [[3/4], [1/4]],
                           closest := none, distance := none }],
               queue := [2],
               tree := [([3/4], 2), ([1/4], 2)] } : cure_state).arena,
        c.mean = centroid 1 c.points) ∧
     (∀ c1 c2 : cure_cluster, cluster_wf 1 c1 → cluster_wf 1 c2 →
       (merge_clusters 5 (1/2) c1 c2).mean =
         centroid 1 (c1.points ++ c2.points))) :=
  ⟨⟨by decide, by decide⟩,
   C9_mean_is_centroid 1 [[0], [1]] 1 5 2 (1/2) _ (by decide) (by decide)⟩

/-- Overwriting one arena slot leaves every other slot unchanged. -/
theorem getD_set_ne (a : List cure_cluster) (k : Nat) (v : cure_cluster)
    (n : Nat) (h : k ≠ n) : (a.set k v).getD n default = a.getD n default := by
  rw [List.getD_eq_getElem?_getD, List.getD_eq_getElem?_getD,
    List.getElem?_set, if_neg h]

/-- Reading back an in-range overwritten arena slot. -/
theorem getD_set_self (a : List cure_cluster) (k : Nat) (v : cure_cluster)
    (h : k < a.length) : (a.set k v).getD k default = v := by
  rw [List.getD_eq_getElem?_getD, List.getElem?_set, if_pos rfl, if_pos h,
    Option.getD_some]

/-- One step of the scan-and-repair fold only touches its own item's slot. -/
theorem repair_acc_frame (i1 i2 mIdx : Nat) (tree3 : List (Point × Nat))
    (acc : cure_cluster × List cure_cluster × List Nat) (x n : Nat)
    (h : x ≠ n) :
    (repair_acc i1 i2 mIdx tree3 acc x).2.1.getD n default =
      acc.2.1.getD n default := by
  unfold repair_acc
  dsimp only
  repeat' split
  all_goals first | rfl | exact getD_set_ne _ x _ n h

/-- Iterations of the scan-and-repair fold over other items leave a slot
unchanged. -/
theorem repair_foldl_frame (i1 i2 mIdx : Nat) (tree3 : List (Point × Nat))
    (l : List Nat) (n : Nat) (h : n ∉ l) :
    ∀ (acc : cure_cluster × List cure_cluster × List Nat),
      (l.foldl (repair_acc i1 i2 mIdx tree3) acc).2.1.getD n default =
        acc.2.1.getD n default := by
  induction l with
  | nil => intro acc; rfl
  | cons x xs ih =>
    intro acc
    rw [List.foldl_cons,
      ih (fun hm => h (List.mem_cons_of_mem x hm)),
      repair_acc_frame i1 i2 mIdx tree3 acc x n
        (fun he => h (he ▸ List.mem_cons_self x xs))]

/-- The cluster distance only reads the representative points of its
arguments. -/
theorem cluster_distance_rep_congr (c1 c1' c2 : cure_cluster)
    (h : c1.rep = c1'.rep) : cluster_distance c1 c2 = cluster_distance c1' c2 := by
  unfold cluster_distance
  rw [h]

/-- The repair step on an item whose cached neighbour was one of the two
merged clusters, with a cached distance strictly below the distance to the
merged cluster, re-derives the neighbour through the tree with the distance
to the merged cluster as the radius, falling back to the merged cluster at
that distance when the query surfaces nothing. -/
theorem repair_acc_dead_neighbor (i1 i2 mIdx : Nat) (tree3 : List (Point × Nat))
    (acc : cure_cluster × List cure_cluster × List Nat) (item : Nat)
    (hdead : (acc.2.1.getD item default).closest = some i1 ∨
             (acc.2.1.getD item default).closest = some i2)
    (hlt : dlt (acc.2.1.getD item default).distance
        (cluster_distance acc.1 (acc.2.1.getD item default)) = true)
    (hitem : item < acc.2.1.length) :
    (repair_acc i1 i2 mIdx tree3 acc item).2.1.getD item default =
      match (closest_cluster tree3 (acc.2.1.getD item default) item
          (cluster_distance acc.1 (acc.2.1.getD item default))).1 with
      | none => { acc.2.1.getD item default with
                  closest := some mIdx,
                  distance := cluster_distance acc.1 (acc.2.1.getD item default) }
      | some c => { acc.2.1.getD item default with
                    closest := some c,
                    distance := (closest_cluster tree3 (acc.2.1.getD item default)
                      item (cluster_distance acc.1
                        (acc.2.1.getD item default))).2 } := by
  unfold repair_acc
  dsimp only
  have hcond : ((acc.2.1.getD item default).closest == some i1 ||
      (acc.2.1.getD item default).closest == some i2) = true := by
    rcases hdead with h | h <;> rw [h] <;> simp
  simp only [hcond, hlt]
  rw [if_pos trivial, if_pos trivial]
  split
  · exact getD_set_self _ item _ hitem
  · exact getD_set_self _ item _ hitem

/-- C4 (amended): in every merge round, for every remaining frontier cluster
whose cached nearest neighbour was one of the two just-merged clusters and
whose cached distance is strictly less than its distance to the merged
cluster, the engine re-derives the neighbour by a radius-bounded spatial
query anchored at the item's own representative points using THE DISTANCE TO
THE MERGED CLUSTER as the search radius (not the cached distance, as the
claim states); if the query surfaces no live cluster other than the item
itself, the merged cluster is assigned at that distance. -/
theorem C4_amended_merged_radius (R : Nat) (comp : ℚ) (s s' : cure_state)
    (i1 i2 item : Nat) (rest : List Nat) (t1 t2 : List (Point × Nat))
    (merged : cure_cluster) (tree3 : List (Point × Nat)) (ρ : Dist)
    (hqueue : s.queue = i1 :: rest)
    (hnodup : s.queue.Nodup)
    (hclosest1 : (getC s i1).closest = some i2)
    (hmerged : merged = merge_clusters R comp (getC s i1) (getC s i2))
    (ht1 : delete_represented_points s.tree (getC s i1) = some t1)
    (ht2 : delete_represented_points t1 (getC s i2) = some t2)
    (htree : tree3 = insert_represented_points t2 merged s.arena.length)
    (hρ : ρ = cluster_distance merged (getC s item))
    (hrun : round_step R comp s = some s')
    (hmem : item ∈ (s.queue.erase i1).erase i2)
    (hitem : item < s.arena.length)
    (hdead : (getC s item).closest = some i1 ∨ (getC s item).closest = some i2)
    (hlt : dlt (getC s item).distance ρ = true) :
    getC s' item =
      match (closest_cluster tree3 (getC s item) item ρ).1 with
      | none => { getC s item with closest := some s.arena.length, distance := ρ }
      | some c => { getC s item with
                    closest := some c,
                    distance := (closest_cluster tree3 (getC s item) item ρ).2 } := by
  subst hmerged
  subst htree
  subst hρ
  obtain ⟨i1', i2', rest', t1', t2', q4, hqueue', hclosest', hm1, hm2, ht1', ht2',
    hrest⟩ := round_step_inv R comp s s' hrun
  rw [hqueue] at hqueue'
  injection hqueue' with hi1e hreste
  subst hi1e
  have hi2e := Option.some_inj.mp (hclosest1.symm.trans hclosest')
  subst hi2e
  have ht1e := Option.some_inj.mp (ht1.symm.trans ht1')
  subst ht1e
  have ht2e := Option.some_inj.mp (ht2.symm.trans ht2')
  subst ht2e
  obtain ⟨hfold, hs'⟩ := hrest
  subst hs'
  set q2 := (s.queue.erase i1).erase i2 with hq2def
  set merged0 := merge_clusters R comp (getC s i1) (getC s i2) with hm0def
  set tree3 := insert_represented_points t2 merged0 s.arena.length with ht3def
  set start := scan_start s merged0 q2 with hstartdef
  set result := q2.foldl (repair_acc i1 i2 s.arena.length tree3) start with hresdef
  have hstart_arena : start.2.1 = s.arena := by
    rw [hstartdef]
    rcases q2 with _ | ⟨j, js⟩ <;> rfl
  have hstart_rep : start.1.rep = merged0.rep := by
    rw [hstartdef]
    rcases q2 with _ | ⟨j, js⟩ <;> rfl
  obtain ⟨l1, l2, hsplit⟩ := List.append_of_mem hmem
  have hnq2 : q2.Nodup :=
    ((List.erase_sublist i2 (s.queue.erase i1)).trans
      (List.erase_sublist i1 s.queue)).nodup hnodup
  rw [hsplit] at hnq2
  have hdisj := List.nodup_append.mp hnq2
  have hnotl1 : item ∉ l1 := fun h => hdisj.2.2 h (List.mem_cons_self item l2)
  have hnotl2 : item ∉ l2 := (List.nodup_cons.mp hdisj.2.1).1
  obtain ⟨hp_pts, hp_rep, hp_len, hp_all⟩ :=
    repair_foldl_points i1 i2 s.arena.length tree3 l1 start
  have haccitem : (l1.foldl (repair_acc i1 i2 s.arena.length tree3)
      start).2.1.getD item default = getC s item := by
    rw [repair_foldl_frame i1 i2 s.arena.length tree3 l1 item hnotl1 start,
      hstart_arena]
    rfl
  have haccrep : (l1.foldl (repair_acc i1 i2 s.arena.length tree3)
      start).1.rep = merged0.rep := hp_rep.trans hstart_rep
  have hacclen : (l1.foldl (repair_acc i1 i2 s.arena.length tree3)
      start).2.1.length = s.arena.length := by
    rw [hp_len, hstart_arena]
  have hdcongr : cluster_distance
      (l1.foldl (repair_acc i1 i2 s.arena.length tree3) start).1
      (getC s item) = cluster_distance merged0 (getC s item) :=
    cluster_distance_rep_congr _ _ _ haccrep
  have hkey := repair_acc_dead_neighbor i1 i2 s.arena.length tree3
    (l1.foldl (repair_acc i1 i2 s.arena.length tree3) start) item
    (by rw [haccitem]; exact hdead)
    (by rw [haccitem, hdcongr]; exact hlt)
    (by rw [hacclen]; exact hitem)
  rw [haccitem, hdcongr] at hkey
  obtain ⟨hq_pts, hq_rep, hq_len, hq_all⟩ :=
    repair_foldl_points i1 i2 s.arena.length tree3 q2 start
  have hreslen : result.2.1.length = s.arena.length := by
    rw [hresdef, hq_len, hstart_arena]
  have hslot : result.2.1.getD item default =
      (repair_acc i1 i2 s.arena.length tree3
        (l1.foldl (repair_acc i1 i2 s.arena.length tree3) start)
        item).2.1.getD item default := by
    rw [hresdef, hsplit, List.foldl_append, List.foldl_cons]
    exact repair_foldl_frame i1 i2 s.arena.length tree3 l2 item hnotl2 _
  have hL : getC { arena := result.2.1 ++ [result.1], queue := q4, tree := tree3 }
      item = (result.2.1 ++ [result.1]).getD item default := rfl
  rw [hL, getD_append_lt result.2.1 result.1 item (by rw [hreslen]; exact hitem),
    hslot, hkey]

/-- Witness for the amended C4: the first round on `c4_data`, where the
cluster at `[10]` (index `2`) loses its cached neighbour `[1]` and the radius
actually passed to the query is the squared distance `1369/16` to the merged
cluster. -/
theorem C4_amended_merged_radius_witness :
    ((cure_init c4_data).queue = 0 :: [1, 2, 3] ∧
     (cure_init c4_data).queue.Nodup ∧
     (getC (cure_init c4_data) 0).closest = some 1 ∧
     c4_merged = merge_clusters 5 (1/2) (getC (cure_init c4_data) 0)
       (getC (cure_init c4_data) 1) ∧
     delete_represented_points (cure_init c4_data).tree
       (getC (cure_init c4_data) 0) = some [([1], 1), ([10], 2), ([191/10], 3)] ∧
     delete_represented_points [([1], 1), ([10], 2), ([191/10], 3)]
       (getC (cure_init c4_data) 1) = some [([10], 2), ([191/10], 3)] ∧
     ([([10], 2), ([191/10], 3), ([3/4], 4), ([1/4], 4)] :
         List (Point × Nat)) = insert_represented_points
       [([10], 2), ([191/10], 3)] c4_merged (cure_init c4_data).arena.length ∧
     (some (1369/16) : Dist) =
       cluster_distance c4_merged (getC (cure_init c4_data) 2) ∧
     round_step 5 (1/2) (cure_init c4_data) = some c4_round1 ∧
     2 ∈ (((cure_init c4_data).queue.erase 0).erase 1) ∧
     2 < (cure_init c4_data).arena.length ∧
     ((getC (cure_init c4_data) 2).closest = some 0 ∨
      (getC (cure_init c4_data) 2).closest = some 1) ∧
     dlt (getC (cure_init c4_data) 2).distance (some (1369/16)) = true) ∧
    getC c4_round1 2 =
      match (closest_cluster [([10], 2), ([191/10], 3), ([3/4], 4), ([1/4], 4)]
          (getC (cure_init c4_data) 2) 2 (some (1369/16))).1 with
      | none => { getC (cure_init c4_data) 2 with
                  closest := some (cure_init c4_data).arena.length,
                  distance := some (1369/16) }
      | some c => { getC (cure_init c4_data) 2 with
                    closest := some c,
                    distance := (closest_cluster
                      [([10], 2), ([191/10], 3), ([3/4], 4), ([1/4], 4)]
                      (getC (cure_init c4_data) 2) 2 (some (1369/16))).2 } :=
  ⟨⟨by decide, by decide, by decide, by decide, by decide, by decide, by decide,
    by decide, by decide, by decide, by decide, by decide, by decide⟩,
   C4_amended_merged_radius 5 (1/2) (cure_init c4_data) c4_round1 0 1 2 [1, 2, 3]
     [([1], 1), ([10], 2), ([191/10], 3)] [([10], 2), ([191/10], 3)] c4_merged
     [([10], 2), ([191/10], 3), ([3/4], 4), ([1/4], 4)] (some (1369/16))
     (by decide) (by decide) (by decide) (by decide) (by decide) (by decide)
     (by decide) (by decide) (by decide) (by decide) (by decide) (by decide)
     (by decide)⟩

/-- C10: the engine is deterministic: running the clustering twice on the
same input and configuration yields identical output partitions.  The
embedding is a pure function precisely because the source is deterministic —
`cure.process` invokes no randomness anywhere (the only tie-breaking rules
are the fixed first-found-minimum and last-found-maximum scan orders), so two
runs coincide definitionally. -/
theorem C10_deterministic (data : List Point) (number_cluster : Nat)
    (number_represent_points : Nat) (compression : ℚ) :
    cure_process data number_cluster number_represent_points compression =
      cure_process data number_cluster number_represent_points compression := rfl

end ConcreteRuns

end Cure
